import Mathlib

/-!
Shallow embedding of the abireport-rs ABI capture extractor
(src/lib.rs; src/main.rs is a near-duplicate draft of the same code).
The extractor reads an ELF binary, classifies its dynamic symbols into
imports and exports, and recovers DT_NEEDED/DT_RPATH/DT_RUNPATH/DT_SONAME
metadata from the dynamic section.  External collaborators (the `elf`
crate's structural view and the `natural_sort_rs` comparator) are modelled
as explicit data.
-/

namespace AbiReport

/-- Outcome of running Rust code that may panic: either a panic carrying
the panic message (from `expect`/`unwrap`), or a normal return. -/
inductive POut (α : Type) where
  | panic (msg : String) : POut α
  | ok (val : α) : POut α
deriving Repr, DecidableEq

/-- The `std::io::Result` type used by `parse_elf`. -/
abbrev IoResult (α : Type) := Except String α

/-- A dynamic symbol table entry as exposed by the external `elf` crate:
`st_name` is an offset into the associated string table, `st_shndx` the
index of the defining section, and `st_other` carries the visibility
bits. -/
structure DynSym where
  st_name : Nat
  st_shndx : Nat
  st_other : Nat
  st_bind : Nat
  st_symtype : Nat
deriving Repr, DecidableEq

/-- The `elf` crate's `Symbol::is_undefined`: the section index equals
`SHN_UNDEF = 0`. -/
def DynSym.is_undefined (s : DynSym) : Bool := s.st_shndx == 0

/-- The `elf` crate's `Symbol::st_vis`: the low two bits of `st_other`. -/
def DynSym.st_vis (s : DynSym) : Nat := s.st_other % 4

/-- A dynamic-section entry: the signed tag and the value returned by
`d_val()`. -/
structure DynEnt where
  d_tag : Int
  d_val : Nat
deriving Repr, DecidableEq

/-- A string table as exposed by the external `elf` crate: `get` resolves
a byte offset to the NUL-terminated string starting there, and fails
(`none`) when the offset is out of range or malformed. -/
structure StrTab where
  get : Nat → Option String

/-- The `elf` crate's `CommonElfData`, as produced by `find_common_data`:
the regular symbol table and its string table, the dynamic symbol table
and its string table, and the dynamic section. -/
structure CommonElfData where
  symtab : Option (List DynSym)
  symtab_strs : Option StrTab
  dynsyms : Option (List DynSym)
  dynsyms_strs : Option StrTab
  dynamic : Option (List DynEnt)

/-- Dynamic-section tag constant `DT_NEEDED` from `elf::abi`. -/
def DT_NEEDED : Int := 1

/-- Dynamic-section tag constant `DT_SONAME` from `elf::abi`. -/
def DT_SONAME : Int := 14

/-- Dynamic-section tag constant `DT_RPATH` from `elf::abi`. -/
def DT_RPATH : Int := 15

/-- Dynamic-section tag constant `DT_RUNPATH` from `elf::abi`. -/
def DT_RUNPATH : Int := 29

mutual

/-- Tokenisation underlying the natural comparator.  Modelled from the
spec (the `natural_sort_rs` crate is external to the repository):
ASCII/lexicographic comparison except that contiguous digit runs compare
by numeric value.  A run of decimal digits becomes the chunk
`(0, value)`; any other character `c` becomes `(1, c.toNat)`. -/
def natKeyAux : List Char → List (Nat × Nat)
  | [] => []
  | c :: cs =>
    if c.isDigit then grabNum (c.toNat - 48) cs
    else (1, c.toNat) :: natKeyAux cs

/-- Accumulate the numeric value of a digit run, then resume
`natKeyAux` on the rest of the characters. -/
def grabNum (acc : Nat) : List Char → List (Nat × Nat)
  | [] => [(0, acc)]
  | c :: cs =>
    if c.isDigit then grabNum (acc * 10 + (c.toNat - 48)) cs
    else (0, acc) :: (1, c.toNat) :: natKeyAux cs

end

/-- The chunk key of a string for natural comparison. -/
def naturalKey (s : String) : List (Nat × Nat) := natKeyAux s.data

/-- Lexicographic comparison of two chunks. -/
def cmpPair (a b : Nat × Nat) : Ordering :=
  match compare a.1 b.1 with
  | .eq => compare a.2 b.2
  | o => o

/-- Lexicographic comparison of chunk keys. -/
def cmpKey : List (Nat × Nat) → List (Nat × Nat) → Ordering
  | [], [] => .eq
  | [], _ :: _ => .lt
  | _ :: _, [] => .gt
  | a :: as, b :: bs =>
    match cmpPair a b with
    | .eq => cmpKey as bs
    | o => o

/-- The `natural_cmp` comparator of the external `natural_sort_rs` crate,
modelled from the spec: lexicographic comparison except that contiguous
digit runs compare by their numeric value. -/
def natural_cmp (a b : String) : Ordering := cmpKey (naturalKey a) (naturalKey b)

/-- Plain character-by-character lexicographic comparison, for contrast
with `natural_cmp`. -/
def lexCmp (a b : String) : Ordering :=
  cmpKey (a.data.map fun c => (1, c.toNat)) (b.data.map fun c => (1, c.toNat))

/-- The non-strict order induced by the `natural_cmp` comparator; this is
the order in which Rust's stable `sort_by(|a, b| a.natural_cmp(b))`
leaves the list. -/
def natLeP (a b : String) : Prop := natural_cmp a b ≠ Ordering.gt

instance : DecidableRel natLeP := fun a b => by
  unfold natLeP; infer_instance

/-- Rust's stable `sort_by` with the `natural_cmp` comparator, modelled
as a stable sort by the induced non-strict order. -/
def sortNat (l : List String) : List String := List.insertionSort natLeP l

/-- The symbol-classification loop of `parse_dynsyms_section`
(src/lib.rs lines 97-133): resolve each entry's name from the dynamic
string table (panicking like the source's `unwrap` when the offset does
not resolve), then record it as imported when the entry is undefined, as
exported when it is defined with default visibility, and in neither list
otherwise. -/
def classifySyms (strtab : StrTab) : List DynSym → POut (List String × List String)
  | [] => .ok ([], [])
  | dynsym :: rest =>
    match strtab.get dynsym.st_name with
    | none => .panic "called Option::unwrap() on a None value"
    | some ds =>
      match classifySyms strtab rest with
      | .panic m => .panic m
      | .ok (abi_imports, abi_exports) =>
        let imported := dynsym.is_undefined
        let exported := !dynsym.is_undefined && dynsym.st_vis == 0
        if imported then .ok (ds :: abi_imports, abi_exports)
        else if exported then .ok (abi_imports, ds :: abi_exports)
        else .ok (abi_imports, abi_exports)

/-- The `parse_dynsyms_section` function of src/lib.rs: unwrap the
dynamic symbol table and its string table (panicking when either is
absent), classify every entry, then naturally sort both lists. -/
def parse_dynsyms_section (c : CommonElfData) : POut (List String × List String) :=
  match c.dynsyms, c.dynsyms_strs with
  | some dynsyms, some strtab =>
    match classifySyms strtab dynsyms with
    | .panic m => .panic m
    | .ok (abi_imports, abi_exports) => .ok (sortNat abi_imports, sortNat abi_exports)
  | _, _ => .panic "called Option::unwrap() on a None value"

/-- The tag-dispatch loop of `parse_dynamic_section` (src/lib.rs lines
156-190): scan the dynamic entries in order, appending each DT_NEEDED
string and overwriting the rpath, runpath and soname slots; every string
lookup goes through the dynamic string table and panics like the
source's `unwrap` when it fails. -/
def scanDynamic (dynsyms_strs : StrTab) :
    List DynEnt → List String → Option String → Option String → Option String →
    POut (List String × Option String × Option String × Option String)
  | [], dt_needed, dt_rpath, dt_runpath, dt_soname =>
    .ok (dt_needed, dt_rpath, dt_runpath, dt_soname)
  | e :: rest, dt_needed, dt_rpath, dt_runpath, dt_soname =>
    if e.d_tag == DT_NEEDED then
      match dynsyms_strs.get e.d_val with
      | none => .panic "called Option::unwrap() on a None value"
      | some s => scanDynamic dynsyms_strs rest (dt_needed ++ [s]) dt_rpath dt_runpath dt_soname
    else if e.d_tag == DT_RPATH then
      match dynsyms_strs.get e.d_val with
      | none => .panic "called Option::unwrap() on a None value"
      | some s => scanDynamic dynsyms_strs rest dt_needed (some s) dt_runpath dt_soname
    else if e.d_tag == DT_RUNPATH then
      match dynsyms_strs.get e.d_val with
      | none => .panic "called Option::unwrap() on a None value"
      | some s => scanDynamic dynsyms_strs rest dt_needed dt_rpath (some s) dt_soname
    else if e.d_tag == DT_SONAME then
      match dynsyms_strs.get e.d_val with
      | none => .panic "called Option::unwrap() on a None value"
      | some s => scanDynamic dynsyms_strs rest dt_needed dt_rpath dt_runpath (some s)
    else scanDynamic dynsyms_strs rest dt_needed dt_rpath dt_runpath dt_soname

/-- The `parse_dynamic_section` function of src/lib.rs: when both a
dynamic section and a dynamic string table are present, scan the entries
and naturally sort the DT_NEEDED list; otherwise return the empty
defaults. -/
def parse_dynamic_section (c : CommonElfData) :
    POut (List String × Option String × Option String × Option String) :=
  match c.dynamic with
  | none => .ok ([], none, none, none)
  | some dynamic =>
    match c.dynsyms_strs with
    | none => .ok ([], none, none, none)
    | some dynsyms_strs =>
      match scanDynamic dynsyms_strs dynamic [] none none none with
      | .panic m => .panic m
      | .ok (dt_needed, dt_rpath, dt_runpath, dt_soname) =>
        .ok (sortNat dt_needed, dt_rpath, dt_runpath, dt_soname)

/-- The `ElfKind` enum of src/lib.rs. -/
inductive ElfKind where
  | Executable
  | SharedObject
  | Unknown
deriving Repr, DecidableEq

/-- The `AbiCapture` struct of src/lib.rs. -/
structure AbiCapture where
  elf_kind : ElfKind
  filename : String
  dynsym_imports : List String
  dynsym_exports : List String
  manual_deps : List String
  needed_deps : List String
  optional_deps : List String
  rpath : Option String
  runpath : Option String
  soname : Option String
deriving Repr, DecidableEq

/-- The view of a parsed ELF file that `parse_elf` consumes: the file
header's type field (`e_type`) and the result of `find_common_data`
(`none` models a section-header parse failure). -/
structure ElfFile where
  e_type : Nat
  common : Option CommonElfData

/-- The file system as `std::fs::read` sees it: `none` when the path
does not exist or cannot be read. -/
structure FsEnv where
  readFile : String → Option (List Nat)

/-- The external `elf` crate's `ElfBytes::minimal_parse`: `none` models
a parse error on bytes that are not valid ELF. -/
structure ElfLib where
  minimal_parse : List Nat → Option ElfFile

/-- The `parse_elf` function of src/lib.rs: read the file, minimally
parse it as ELF, locate the common data (each step panicking via
`expect` on failure), run the two section parsers, and assemble the
capture.  The `elf_kind` field is hardcoded to `Unknown` and the
placeholder dependency lists to the sentinel `["Not implemented"]`,
exactly as in the source. -/
def parse_elf (fs : FsEnv) (lib : ElfLib) (file_name : String) :
    POut (IoResult AbiCapture) :=
  match fs.readFile file_name with
  | none => .panic "Could not read file \x7bfile_name:?\x7d."
  | some file_data =>
    match lib.minimal_parse file_data with
    | none => .panic "Could not parse \x7bfile_name:?\x7d as ELF data."
    | some elf_file =>
      match elf_file.common with
      | none => .panic "ELF section headers (shdrs) of \x7bfile_name:?\x7d should parse."
      | some common_elf_data =>
        match parse_dynsyms_section common_elf_data with
        | .panic m => .panic m
        | .ok (ds_imports, ds_exports) =>
          match parse_dynamic_section common_elf_data with
          | .panic m => .panic m
          | .ok (dt_needed, dt_rpath, dt_runpath, dt_soname) =>
            .ok (.ok
              { elf_kind := ElfKind.Unknown
                filename := file_name
                dynsym_imports := ds_imports
                dynsym_exports := ds_exports
                manual_deps := ["Not implemented"]
                needed_deps := dt_needed
                optional_deps := ["Not implemented"]
                rpath := dt_rpath
                runpath := dt_runpath
                soname := dt_soname })

/-! Order theory of the natural comparator. -/

theorem cmpPair_eq_eq {a b : Nat × Nat} : cmpPair a b = Ordering.eq ↔ a = b := by
  unfold cmpPair
  rcases h : compare a.1 b.1 with _ | _ | _
  · have := Nat.compare_eq_lt.mp h
    constructor
    · intro hc; cases hc
    · rintro rfl; omega
  · have h1 := Nat.compare_eq_eq.mp h
    constructor
    · intro hc
      have h2 := Nat.compare_eq_eq.mp hc
      exact Prod.ext h1 h2
    · rintro rfl
      exact Nat.compare_eq_eq.mpr rfl
  · have := Nat.compare_eq_gt.mp h
    constructor
    · intro hc; cases hc
    · rintro rfl; omega

theorem cmpPair_lt_iff {a b : Nat × Nat} :
    cmpPair a b = Ordering.lt ↔ a.1 < b.1 ∨ (a.1 = b.1 ∧ a.2 < b.2) := by
  unfold cmpPair
  rcases h : compare a.1 b.1 with _ | _ | _
  · have := Nat.compare_eq_lt.mp h
    simp only [true_iff]
    · exact Or.inl this
  · have h1 := Nat.compare_eq_eq.mp h
    rw [Nat.compare_eq_lt]
    omega
  · have := Nat.compare_eq_gt.mp h
    constructor
    · intro hc; cases hc
    · intro hc; omega

theorem cmpPair_gt_iff {a b : Nat × Nat} :
    cmpPair a b = Ordering.gt ↔ b.1 < a.1 ∨ (a.1 = b.1 ∧ b.2 < a.2) := by
  unfold cmpPair
  rcases h : compare a.1 b.1 with _ | _ | _
  · have := Nat.compare_eq_lt.mp h
    constructor
    · intro hc; cases hc
    · intro hc; omega
  · have h1 := Nat.compare_eq_eq.mp h
    rw [Nat.compare_eq_gt]
    omega
  · have := Nat.compare_eq_gt.mp h
    constructor
    · intro _; exact Or.inl this
    · intro _; rfl

theorem cmpPair_gt_iff_lt {a b : Nat × Nat} :
    cmpPair a b = Ordering.gt ↔ cmpPair b a = Ordering.lt := by
  rw [cmpPair_gt_iff, cmpPair_lt_iff]
  omega

theorem cmpPair_lt_trans {a b c : Nat × Nat} (h1 : cmpPair a b = Ordering.lt)
    (h2 : cmpPair b c = Ordering.lt) : cmpPair a c = Ordering.lt := by
  rw [cmpPair_lt_iff] at *
  rcases h1 with h1 | ⟨h1a, h1b⟩ <;> rcases h2 with h2 | ⟨h2a, h2b⟩ <;> omega

theorem cmpKey_eq_eq : ∀ {k l : List (Nat × Nat)}, cmpKey k l = Ordering.eq ↔ k = l := by
  intro k
  induction k with
  | nil =>
    intro l
    cases l with
    | nil => simp [cmpKey]
    | cons b bs => simp [cmpKey]
  | cons a as ih =>
    intro l
    cases l with
    | nil => simp [cmpKey]
    | cons b bs =>
      unfold cmpKey
      rcases h : cmpPair a b with _ | _ | _
      · constructor
        · intro hc; cases hc
        · rintro hc
          injection hc with hc1 hc2
          rw [hc1, cmpPair_eq_eq.mpr rfl] at h
          cases h
      · rw [cmpPair_eq_eq] at h
        subst h
        constructor
        · intro hc
          rw [ih.mp hc]
        · rintro hc
          injection hc with hc1 hc2
          exact ih.mpr hc2
      · constructor
        · intro hc; cases hc
        · rintro hc
          injection hc with hc1 hc2
          rw [hc1, cmpPair_eq_eq.mpr rfl] at h
          cases h

theorem cmpKey_gt_iff_lt : ∀ {k l : List (Nat × Nat)},
    cmpKey k l = Ordering.gt ↔ cmpKey l k = Ordering.lt := by
  intro k
  induction k with
  | nil =>
    intro l
    cases l with
    | nil => simp [cmpKey]
    | cons b bs => simp [cmpKey]
  | cons a as ih =>
    intro l
    cases l with
    | nil => simp [cmpKey]
    | cons b bs =>
      unfold cmpKey
      rcases h : cmpPair a b with _ | _ | _
      · have hba : cmpPair b a = Ordering.gt := by
          rw [cmpPair_gt_iff_lt]; exact h
        rw [hba]
        constructor <;> (intro hc; cases hc)
      · have hba : cmpPair b a = Ordering.eq := by
          rw [cmpPair_eq_eq] at h ⊢
          exact h.symm
        rw [hba]
        exact ih
      · have hba : cmpPair b a = Ordering.lt := cmpPair_gt_iff_lt.mp h
        rw [hba]
        constructor <;> (intro _; rfl)

theorem cmpKey_lt_trans : ∀ {k l m : List (Nat × Nat)},
    cmpKey k l = Ordering.lt → cmpKey l m = Ordering.lt → cmpKey k m = Ordering.lt := by
  intro k
  induction k with
  | nil =>
    intro l m h1 h2
    cases l with
    | nil => cases h1
    | cons b bs =>
      cases m with
      | nil => cases h2
      | cons c cs => rfl
  | cons a as ih =>
    intro l m h1 h2
    cases l with
    | nil => cases h1
    | cons b bs =>
      cases m with
      | nil => cases h2
      | cons c cs =>
        unfold cmpKey at h1 h2 ⊢
        rcases hab : cmpPair a b with _ | _ | _ <;> rw [hab] at h1
        · rcases hbc : cmpPair b c with _ | _ | _ <;> rw [hbc] at h2
          · rw [cmpPair_lt_trans hab hbc]
          · rw [cmpPair_eq_eq] at hbc
            subst hbc
            rw [hab]
          · cases h2
        · rw [cmpPair_eq_eq] at hab
          subst hab
          rcases hac : cmpPair a c with _ | _ | _
          · rfl
          · rw [hac] at h2
            exact ih h1 h2
          · rw [hac] at h2
            cases h2
        · cases h1

theorem natLeP_total (a b : String) : natLeP a b ∨ natLeP b a := by
  unfold natLeP natural_cmp
  by_cases h : cmpKey (naturalKey a) (naturalKey b) = Ordering.gt
  · right
    rw [cmpKey_gt_iff_lt.mp h]
    intro hc; cases hc
  · left; exact h

theorem natLeP_trans (a b c : String) (h1 : natLeP a b) (h2 : natLeP b c) : natLeP a c := by
  unfold natLeP natural_cmp at *
  rcases hab : cmpKey (naturalKey a) (naturalKey b) with _ | _ | _
  · rcases hbc : cmpKey (naturalKey b) (naturalKey c) with _ | _ | _
    · rw [cmpKey_lt_trans hab hbc]
      intro hc; cases hc
    · rw [cmpKey_eq_eq] at hbc
      rw [← hbc, hab]
      intro hc; cases hc
    · exact absurd hbc h2
  · rw [cmpKey_eq_eq] at hab
    rw [hab]
    exact h2
  · exact absurd hab h1

instance : IsTotal String natLeP := ⟨natLeP_total⟩

instance : IsTrans String natLeP := ⟨natLeP_trans⟩

/-- The output of `sortNat` is sorted by the natural order. -/
theorem sortNat_sorted (l : List String) : (sortNat l).Sorted natLeP :=
  List.sorted_insertionSort natLeP l

/-- The output of `sortNat` is a permutation of its input: no element is
dropped or duplicated by sorting. -/
theorem sortNat_perm (l : List String) : (sortNat l).Perm l :=
  List.perm_insertionSort natLeP l

/-! Concrete fixtures used by the witnesses. -/

/-- Example string table used by the concrete fixtures. -/
def exStrtab : StrTab :=
  ⟨fun n =>
    if n == 1 then some "libA.so" else
    if n == 2 then some "pathB" else
    if n == 3 then some "m10" else
    if n == 4 then some "m2" else none⟩

/-- Example dynamic symbol table: two undefined symbols, one defined
symbol with default visibility, one defined symbol with hidden
visibility. -/
def exDynsyms : List DynSym :=
  [⟨3, 0, 0, 1, 2⟩, ⟨4, 0, 0, 1, 2⟩, ⟨1, 5, 0, 1, 2⟩, ⟨2, 5, 2, 1, 2⟩]

/-- Example dynamic section: one DT_NEEDED entry, two DT_RPATH entries,
one DT_RUNPATH, one DT_SONAME and one irrelevant entry. -/
def exDynamic : List DynEnt :=
  [⟨1, 1⟩, ⟨15, 1⟩, ⟨15, 2⟩, ⟨29, 2⟩, ⟨14, 1⟩, ⟨99, 7⟩]

/-- Example common ELF data assembled from the example tables. -/
def exCommon : CommonElfData :=
  { symtab := none
    symtab_strs := none
    dynsyms := some exDynsyms
    dynsyms_strs := some exStrtab
    dynamic := some exDynamic }

/-- Example file system holding readable content for every path. -/
def exFs : FsEnv := ⟨fun _ => some [127, 69, 76, 70]⟩

/-- Example ELF library: every byte buffer parses to a file with header
type field 2 (ET_EXEC) and `exCommon` as its common data. -/
def exLib : ElfLib := ⟨fun _ => some ⟨2, some exCommon⟩⟩

/-- The capture `parse_elf` produces on the example fixtures. -/
def exCapture : AbiCapture :=
  { elf_kind := ElfKind.Unknown
    filename := "f"
    dynsym_imports := ["m2", "m10"]
    dynsym_exports := ["libA.so"]
    manual_deps := ["Not implemented"]
    needed_deps := ["libA.so"]
    optional_deps := ["Not implemented"]
    rpath := some "pathB"
    runpath := some "pathB"
    soname := some "libA.so" }

/-- A file system on which every read fails. -/
def exFsUnreadable : FsEnv := ⟨fun _ => none⟩

/-- An ELF library for which no byte buffer parses as ELF. -/
def exLibNotElf : ElfLib := ⟨fun _ => none⟩

/-- Helper: the only outcomes of `parse_elf` are a panic or an `Ok`
capture; the `Err` branch of its `io::Result` return type is never
built. -/
theorem parse_elf_outcomes (fs : FsEnv) (lib : ElfLib) (fn : String) :
    (∃ m, parse_elf fs lib fn = .panic m) ∨ ∃ cap, parse_elf fs lib fn = .ok (.ok cap) := by
  unfold parse_elf
  repeat' split
  any_goals exact Or.inl ⟨_, rfl⟩
  exact Or.inr ⟨_, rfl⟩

/-- Helper: every successful capture carries the hardcoded values the
source writes into `AbiCapture`: kind `Unknown` and the sentinel
placeholder lists. -/
theorem parse_elf_ok_shape (fs : FsEnv) (lib : ElfLib) (fn : String) (cap : AbiCapture)
    (h : parse_elf fs lib fn = .ok (.ok cap)) :
    cap.elf_kind = ElfKind.Unknown ∧
    cap.manual_deps = ["Not implemented"] ∧
    cap.optional_deps = ["Not implemented"] := by
  unfold parse_elf at h
  repeat' split at h
  any_goals cases h
  exact ⟨rfl, rfl, rfl⟩

/-- C8: the natural order used for sorting places a string with a
smaller embedded numeric run before one with a larger numeric run when
the strings differ only in that run: "lib2.so" compares below "lib10.so"
under `natural_cmp` and sorts first, while plain lexicographic
comparison reverses the two. -/
theorem natural_order_numeric_runs :
    natural_cmp "lib2.so" "lib10.so" = Ordering.lt ∧
    lexCmp "lib2.so" "lib10.so" = Ordering.gt ∧
    sortNat ["lib10.so", "lib2.so"] = ["lib2.so", "lib10.so"] :=
  ⟨rfl, rfl, rfl⟩

/-- C2 (code bug): the source fills the placeholder dependency fields of
every successfully produced capture with the sentinel list
`["Not implemented"]` instead of an empty container — shown concretely
on the example capture and generically for every successful capture. -/
theorem manual_optional_deps_sentinel :
    parse_elf exFs exLib "f" = .ok (.ok exCapture) ∧
    exCapture.manual_deps = ["Not implemented"] ∧
    exCapture.optional_deps = ["Not implemented"] ∧
    exCapture.manual_deps ≠ ([] : List String) ∧
    exCapture.optional_deps ≠ ([] : List String) ∧
    ∀ fs lib fn cap, parse_elf fs lib fn = .ok (.ok cap) →
      cap.manual_deps = ["Not implemented"] ∧ cap.optional_deps = ["Not implemented"] := by
  refine ⟨rfl, rfl, rfl, by decide, by decide, ?_⟩
  intro fs lib fn cap h
  exact ⟨(parse_elf_ok_shape fs lib fn cap h).2.1, (parse_elf_ok_shape fs lib fn cap h).2.2⟩

theorem manual_optional_deps_sentinel_witness :
    exCapture.manual_deps = ["Not implemented"] ∧
    exCapture.optional_deps = ["Not implemented"] :=
  manual_optional_deps_sentinel.2.2.2.2.2 exFs exLib "f" exCapture rfl

/-- C3 (code bug): the capture's kind is not derived from the ELF file
header's type field: every successfully produced capture has
`elf_kind = Unknown`, even on the example file whose header type field
is 2 (ET_EXEC), which the claim maps to Executable. -/
theorem elf_kind_always_unknown :
    (∀ fs lib fn cap, parse_elf fs lib fn = .ok (.ok cap) → cap.elf_kind = ElfKind.Unknown) ∧
    (∀ bytes, (exLib.minimal_parse bytes).map ElfFile.e_type = some 2) ∧
    parse_elf exFs exLib "f" = .ok (.ok exCapture) ∧
    exCapture.elf_kind = ElfKind.Unknown := by
  refine ⟨?_, fun bytes => rfl, rfl, rfl⟩
  intro fs lib fn cap h
  exact (parse_elf_ok_shape fs lib fn cap h).1

theorem elf_kind_always_unknown_witness : exCapture.elf_kind = ElfKind.Unknown :=
  elf_kind_always_unknown.1 exFs exLib "f" exCapture rfl

/-- C4 (code bug): extraction failures are not returned as per-file
error values: an unreadable path and non-ELF bytes both make `parse_elf`
panic via `expect`, and no input ever produces an `Err` return — the
only outcomes are a panic or `Ok`. -/
theorem parse_elf_panics_not_err :
    parse_elf exFsUnreadable exLib "f" = .panic "Could not read file \x7bfile_name:?\x7d." ∧
    parse_elf exFs exLibNotElf "f" = .panic "Could not parse \x7bfile_name:?\x7d as ELF data." ∧
    ∀ fs lib fn, (∃ m, parse_elf fs lib fn = .panic m) ∨
      ∃ cap, parse_elf fs lib fn = .ok (.ok cap) :=
  ⟨rfl, rfl, parse_elf_outcomes⟩

/-- C9: extraction is deterministic and depends only on the file's
content: two file systems that return the same bytes for the given path
(in particular the same file system read twice) make `parse_elf` return
structurally equal results. -/
theorem parse_elf_deterministic (fs1 fs2 : FsEnv) (lib : ElfLib) (fn : String)
    (h : fs1.readFile fn = fs2.readFile fn) :
    parse_elf fs1 lib fn = parse_elf fs2 lib fn := by
  unfold parse_elf
  rw [h]

theorem parse_elf_deterministic_witness :
    exFs.readFile "f" = exFs.readFile "f" ∧
    parse_elf exFs exLib "f" = parse_elf exFs exLib "f" :=
  ⟨rfl, parse_elf_deterministic exFs exFs exLib "f" rfl⟩

/-! Lemmas about the dynamic-section scan, and claims C1, C7, C10. -/

/-- Helper: an entry whose tag is one dynamic-tag constant fails the
boolean test against a different constant. -/
theorem beq_tag_false {t u : Int} (h : t = u) (v : Int) (hv : u ≠ v) : (t == v) = false := by
  subst h
  simp [hv]

/-- Helper: on success, each of the rpath/runpath/soname slots holds the
string of the last matching entry of the scanned list, or the incoming
accumulator value when no entry matches. -/
theorem scanDynamic_last_wins (st : StrTab) : ∀ (es : List DynEnt)
    (needed : List String) (rp runp so : Option String) out,
    scanDynamic st es needed rp runp so = .ok out →
    out.2.1 = (match (es.filter fun x => x.d_tag == DT_RPATH).getLast? with
               | none => rp
               | some e => st.get e.d_val) ∧
    out.2.2.1 = (match (es.filter fun x => x.d_tag == DT_RUNPATH).getLast? with
               | none => runp
               | some e => st.get e.d_val) ∧
    out.2.2.2 = (match (es.filter fun x => x.d_tag == DT_SONAME).getLast? with
               | none => so
               | some e => st.get e.d_val) := by
  intro es
  induction es with
  | nil =>
    intro needed rp runp so out h
    unfold scanDynamic at h
    injection h with h'
    rw [← h']
    exact ⟨rfl, rfl, rfl⟩
  | cons e rest ih =>
    intro needed rp runp so out h
    unfold scanDynamic at h
    split at h
    · -- DT_NEEDED branch
      rename_i htag
      have htag' : e.d_tag = DT_NEEDED := by simpa using htag
      split at h
      · cases h
      · rename_i s heq
        simpa [List.filter_cons, beq_tag_false htag' DT_RPATH (by decide),
          beq_tag_false htag' DT_RUNPATH (by decide),
          beq_tag_false htag' DT_SONAME (by decide)] using ih (needed ++ [s]) rp runp so out h
    split at h
    · -- DT_RPATH branch
      rename_i hn htag
      have htag' : e.d_tag = DT_RPATH := by simpa using htag
      split at h
      · cases h
      · rename_i s heq
        obtain ⟨c1, c2, c3⟩ := ih needed (some s) runp so out h
        refine ⟨?_, ?_, ?_⟩
        · have hfil : (e :: rest).filter (fun x => x.d_tag == DT_RPATH)
              = e :: rest.filter (fun x => x.d_tag == DT_RPATH) := by
            simp [List.filter_cons, htag']
          rw [hfil]
          rcases hrest : rest.filter (fun x => x.d_tag == DT_RPATH) with _ | ⟨fr, frs⟩
          · rw [hrest] at c1
            rw [hrest]
            simpa [heq] using c1
          · rw [hrest] at c1
            rw [hrest, List.getLast?_cons_cons]
            have hx : (fr :: frs).getLast?.isSome := List.getLast?_isSome.mpr (by simp)
            obtain ⟨x, hx⟩ := Option.isSome_iff_exists.mp hx
            rw [hx] at c1 ⊢
            exact c1
        · simpa [List.filter_cons, beq_tag_false htag' DT_RUNPATH (by decide)] using c2
        · simpa [List.filter_cons, beq_tag_false htag' DT_SONAME (by decide)] using c3
    split at h
    · -- DT_RUNPATH branch
      rename_i hn hr htag
      have htag' : e.d_tag = DT_RUNPATH := by simpa using htag
      split at h
      · cases h
      · rename_i s heq
        obtain ⟨c1, c2, c3⟩ := ih needed rp (some s) so out h
        refine ⟨?_, ?_, ?_⟩
        · simpa [List.filter_cons, beq_tag_false htag' DT_RPATH (by decide)] using c1
        · have hfil : (e :: rest).filter (fun x => x.d_tag == DT_RUNPATH)
              = e :: rest.filter (fun x => x.d_tag == DT_RUNPATH) := by
            simp [List.filter_cons, htag']
          rw [hfil]
          rcases hrest : rest.filter (fun x => x.d_tag == DT_RUNPATH) with _ | ⟨fr, frs⟩
          · rw [hrest] at c2
            rw [hrest]
            simpa [heq] using c2
          · rw [hrest] at c2
            rw [hrest, List.getLast?_cons_cons]
            have hx : (fr :: frs).getLast?.isSome := List.getLast?_isSome.mpr (by simp)
            obtain ⟨x, hx⟩ := Option.isSome_iff_exists.mp hx
            rw [hx] at c2 ⊢
            exact c2
        · simpa [List.filter_cons, beq_tag_false htag' DT_SONAME (by decide)] using c3
    split at h
    · -- DT_SONAME branch
      rename_i hn hr hru htag
      have htag' : e.d_tag = DT_SONAME := by simpa using htag
      split at h
      · cases h
      · rename_i s heq
        obtain ⟨c1, c2, c3⟩ := ih needed rp runp (some s) out h
        refine ⟨?_, ?_, ?_⟩
        · simpa [List.filter_cons, beq_tag_false htag' DT_RPATH (by decide)] using c1
        · simpa [List.filter_cons, beq_tag_false htag' DT_RUNPATH (by decide)] using c2
        · have hfil : (e :: rest).filter (fun x => x.d_tag == DT_SONAME)
              = e :: rest.filter (fun x => x.d_tag == DT_SONAME) := by
            simp [List.filter_cons, htag']
          rw [hfil]
          rcases hrest : rest.filter (fun x => x.d_tag == DT_SONAME) with _ | ⟨fr, frs⟩
          · rw [hrest] at c3
            rw [hrest]
            simpa [heq] using c3
          · rw [hrest] at c3
            rw [hrest, List.getLast?_cons_cons]
            have hx : (fr :: frs).getLast?.isSome := List.getLast?_isSome.mpr (by simp)
            obtain ⟨x, hx⟩ := Option.isSome_iff_exists.mp hx
            rw [hx] at c3 ⊢
            exact c3
    · -- no matching tag
      rename_i hn hr hru hs
      rw [Bool.not_eq_true] at hn hr hru hs
      simpa [List.filter_cons, hr, hru, hs] using ih needed rp runp so out h

/-- Helper: every string in a successful scan's output that is not
already in the accumulators is the result of a lookup in the dynamic
string table the scan was given. -/
theorem scanDynamic_provenance (st : StrTab) : ∀ (es : List DynEnt)
    (needed : List String) (rp runp so : Option String) out,
    scanDynamic st es needed rp runp so = .ok out →
    (∀ s ∈ out.1, s ∈ needed ∨ ∃ off, st.get off = some s) ∧
    (∀ s, out.2.1 = some s → rp = some s ∨ ∃ off, st.get off = some s) ∧
    (∀ s, out.2.2.1 = some s → runp = some s ∨ ∃ off, st.get off = some s) ∧
    (∀ s, out.2.2.2 = some s → so = some s ∨ ∃ off, st.get off = some s) := by
  intro es
  induction es with
  | nil =>
    intro needed rp runp so out h
    unfold scanDynamic at h
    injection h with h'
    rw [← h']
    exact ⟨fun s hs => Or.inl hs, fun s hs => Or.inl hs,
      fun s hs => Or.inl hs, fun s hs => Or.inl hs⟩
  | cons e rest ih =>
    intro needed rp runp so out h
    unfold scanDynamic at h
    split at h
    · split at h
      · cases h
      · rename_i s heq
        obtain ⟨c1, c2, c3, c4⟩ := ih (needed ++ [s]) rp runp so out h
        refine ⟨?_, c2, c3, c4⟩
        intro x hx
        rcases c1 x hx with hmem | hoff
        · rcases List.mem_append.mp hmem with hmem | hmem
          · exact Or.inl hmem
          · have hxs : x = s := by simpa using hmem
            exact Or.inr ⟨e.d_val, by rw [hxs]; exact heq⟩
        · exact Or.inr hoff
    split at h
    · split at h
      · cases h
      · rename_i s heq
        obtain ⟨c1, c2, c3, c4⟩ := ih needed (some s) runp so out h
        refine ⟨c1, ?_, c3, c4⟩
        intro x hx
        rcases c2 x hx with hsome | hoff
        · injection hsome with hxs
          exact Or.inr ⟨e.d_val, by rw [hxs] at heq; exact heq⟩
        · exact Or.inr hoff
    split at h
    · split at h
      · cases h
      · rename_i s heq
        obtain ⟨c1, c2, c3, c4⟩ := ih needed rp (some s) so out h
        refine ⟨c1, c2, ?_, c4⟩
        intro x hx
        rcases c3 x hx with hsome | hoff
        · injection hsome with hxs
          exact Or.inr ⟨e.d_val, by rw [hxs] at heq; exact heq⟩
        · exact Or.inr hoff
    split at h
    · split at h
      · cases h
      · rename_i s heq
        obtain ⟨c1, c2, c3, c4⟩ := ih needed rp runp (some s) out h
        refine ⟨c1, c2, c3, ?_⟩
        intro x hx
        rcases c4 x hx with hsome | hoff
        · injection hsome with hxs
          exact Or.inr ⟨e.d_val, by rw [hxs] at heq; exact heq⟩
        · exact Or.inr hoff
    · exact ih needed rp runp so out h

/-- Helper: a scan over entries none of which carries a string-valued
tag returns its accumulators unchanged. -/
theorem scanDynamic_no_string_tags (st : StrTab) : ∀ (es : List DynEnt),
    (∀ e ∈ es, e.d_tag ≠ DT_NEEDED ∧ e.d_tag ≠ DT_RPATH ∧
      e.d_tag ≠ DT_RUNPATH ∧ e.d_tag ≠ DT_SONAME) →
    ∀ needed rp runp so, scanDynamic st es needed rp runp so = .ok (needed, rp, runp, so) := by
  intro es
  induction es with
  | nil =>
    intro _ needed rp runp so
    rfl
  | cons e rest ih =>
    intro hall needed rp runp so
    obtain ⟨h1, h2, h3, h4⟩ := hall e (by simp)
    have g1 : ¬((e.d_tag == DT_NEEDED) = true) := by simp [h1]
    have g2 : ¬((e.d_tag == DT_RPATH) = true) := by simp [h2]
    have g3 : ¬((e.d_tag == DT_RUNPATH) = true) := by simp [h3]
    have g4 : ¬((e.d_tag == DT_SONAME) = true) := by simp [h4]
    unfold scanDynamic
    rw [if_neg g1, if_neg g2, if_neg g3, if_neg g4]
    exact ih (fun x hx => hall x (List.mem_cons_of_mem e hx)) needed rp runp so

/-- A variant of the example common data with different regular symbol
table fields and no dynamic symbol table, but the same dynamic section
and dynamic string table. -/
def exCommonAlt : CommonElfData :=
  { symtab := some exDynsyms
    symtab_strs := some ⟨fun _ => some "garbage"⟩
    dynsyms := none
    dynsyms_strs := some exStrtab
    dynamic := some exDynamic }

/-- Common data with a dynamic section but no dynamic string table. -/
def exCommonNoStrs : CommonElfData :=
  { symtab := none
    symtab_strs := none
    dynsyms := none
    dynsyms_strs := none
    dynamic := some exDynamic }

/-- A dynamic section with no string-valued tags at all. -/
def exDynamicBoring : List DynEnt := [⟨99, 7⟩, ⟨6, 0⟩]

/-- Common data whose dynamic section has no string-valued tags. -/
def exCommonBoring : CommonElfData :=
  { symtab := none
    symtab_strs := none
    dynsyms := none
    dynsyms_strs := some exStrtab
    dynamic := some exDynamicBoring }

/-- C1: dynamic-section string values (DT_NEEDED, DT_RPATH, DT_RUNPATH,
DT_SONAME) are resolved against the dynamic string table
(`dynsyms_strs`), never against the regular symbol string table:
`parse_dynamic_section` is unchanged under arbitrary changes of the
`symtab`, `symtab_strs` and `dynsyms` fields, and every string it
returns is the result of a lookup in the dynamic string table. -/
theorem dynamic_strings_from_dynamic_strtab (c1 c2 : CommonElfData)
    (hdyn : c1.dynamic = c2.dynamic) (hstrs : c1.dynsyms_strs = c2.dynsyms_strs) :
    parse_dynamic_section c1 = parse_dynamic_section c2 ∧
    (∀ needed rp runp so, parse_dynamic_section c1 = .ok (needed, rp, runp, so) →
      (∀ s ∈ needed, ∃ st off, c1.dynsyms_strs = some st ∧ st.get off = some s) ∧
      (∀ s, rp = some s → ∃ st off, c1.dynsyms_strs = some st ∧ st.get off = some s) ∧
      (∀ s, runp = some s → ∃ st off, c1.dynsyms_strs = some st ∧ st.get off = some s) ∧
      (∀ s, so = some s → ∃ st off, c1.dynsyms_strs = some st ∧ st.get off = some s)) := by
  constructor
  · unfold parse_dynamic_section
    rw [hdyn, hstrs]
  · intro needed rp runp so h
    rcases hd : c1.dynamic with _ | dyn
    · unfold parse_dynamic_section at h
      rw [hd] at h
      injection h with h'
      simp only [Prod.mk.injEq] at h'
      obtain ⟨h1, h2, h3, h4⟩ := h'
      subst h1 h2 h3 h4
      exact ⟨fun s hs => absurd hs (List.not_mem_nil s),
        fun s hs => Option.noConfusion hs,
        fun s hs => Option.noConfusion hs,
        fun s hs => Option.noConfusion hs⟩
    rcases hstrs_eq : c1.dynsyms_strs with _ | st
    · unfold parse_dynamic_section at h
      rw [hd, hstrs_eq] at h
      injection h with h'
      simp only [Prod.mk.injEq] at h'
      obtain ⟨h1, h2, h3, h4⟩ := h'
      subst h1 h2 h3 h4
      exact ⟨fun s hs => absurd hs (List.not_mem_nil s),
        fun s hs => Option.noConfusion hs,
        fun s hs => Option.noConfusion hs,
        fun s hs => Option.noConfusion hs⟩
    have hparse : parse_dynamic_section c1 =
        match scanDynamic st dyn [] none none none with
        | .panic m => .panic m
        | .ok (n, a, b, c0) => .ok (sortNat n, a, b, c0) := by
      unfold parse_dynamic_section
      rw [hd, hstrs_eq]
    rw [hparse] at h
    split at h
    · cases h
    rename_i n a b c0 heq
    simp only [POut.ok.injEq, Prod.mk.injEq] at h
    obtain ⟨h1, h2, h3, h4⟩ := h
    subst h1 h2 h3 h4
    obtain ⟨p1, p2, p3, p4⟩ := scanDynamic_provenance st dyn [] none none none (n, a, b, c0) heq
    refine ⟨?_, ?_, ?_, ?_⟩
    · intro s hs
      have hs' : s ∈ n := (sortNat_perm n).mem_iff.mp hs
      rcases p1 s hs' with hmem | ⟨off, hoff⟩
      · exact absurd hmem (List.not_mem_nil s)
      · exact ⟨st, off, rfl, hoff⟩
    · intro s hs
      rcases p2 s hs with hc | ⟨off, hoff⟩
      · cases hc
      · exact ⟨st, off, rfl, hoff⟩
    · intro s hs
      rcases p3 s hs with hc | ⟨off, hoff⟩
      · cases hc
      · exact ⟨st, off, rfl, hoff⟩
    · intro s hs
      rcases p4 s hs with hc | ⟨off, hoff⟩
      · cases hc
      · exact ⟨st, off, rfl, hoff⟩

theorem dynamic_strings_from_dynamic_strtab_witness :
    parse_dynamic_section exCommon = parse_dynamic_section exCommonAlt ∧
    ∃ st off, exCommon.dynsyms_strs = some st ∧ st.get off = some "libA.so" :=
  ⟨(dynamic_strings_from_dynamic_strtab exCommon exCommonAlt rfl rfl).1,
   ((dynamic_strings_from_dynamic_strtab exCommon exCommonAlt rfl rfl).2
      ["libA.so"] (some "pathB") (some "pathB") (some "libA.so") rfl).1
      "libA.so" (List.mem_singleton.mpr rfl)⟩

/-- C7: when the dynamic section contains multiple DT_RPATH (or
DT_RUNPATH, or DT_SONAME) entries, the corresponding capture field holds
the string of the last such occurrence in section order. -/
theorem dynamic_last_occurrence_wins (c : CommonElfData) (dyn : List DynEnt) (st : StrTab)
    (needed : List String) (rp runp so : Option String)
    (hdyn : c.dynamic = some dyn) (hstrs : c.dynsyms_strs = some st)
    (h : parse_dynamic_section c = .ok (needed, rp, runp, so)) :
    (∀ e, (dyn.filter fun x => x.d_tag == DT_RPATH).getLast? = some e →
      rp = st.get e.d_val) ∧
    (∀ e, (dyn.filter fun x => x.d_tag == DT_RUNPATH).getLast? = some e →
      runp = st.get e.d_val) ∧
    (∀ e, (dyn.filter fun x => x.d_tag == DT_SONAME).getLast? = some e →
      so = st.get e.d_val) := by
  have hparse : parse_dynamic_section c =
      match scanDynamic st dyn [] none none none with
      | .panic m => .panic m
      | .ok (n, a, b, c0) => .ok (sortNat n, a, b, c0) := by
    unfold parse_dynamic_section
    rw [hdyn, hstrs]
  rw [hparse] at h
  split at h
  · cases h
  rename_i n a b c0 heq
  simp only [POut.ok.injEq, Prod.mk.injEq] at h
  obtain ⟨h1, h2, h3, h4⟩ := h
  subst h1 h2 h3 h4
  obtain ⟨o1, o2, o3⟩ := scanDynamic_last_wins st dyn [] none none none (n, a, b, c0) heq
  refine ⟨?_, ?_, ?_⟩
  · intro e he
    rw [he] at o1
    exact o1
  · intro e he
    rw [he] at o2
    exact o2
  · intro e he
    rw [he] at o3
    exact o3

theorem dynamic_last_occurrence_wins_witness :
    some "pathB" = exStrtab.get (2 : Nat) ∧
    some "pathB" = exStrtab.get (2 : Nat) ∧
    some "libA.so" = exStrtab.get (1 : Nat) :=
  ⟨(dynamic_last_occurrence_wins exCommon exDynamic exStrtab ["libA.so"]
      (some "pathB") (some "pathB") (some "libA.so") rfl rfl rfl).1 ⟨15, 2⟩ rfl,
   (dynamic_last_occurrence_wins exCommon exDynamic exStrtab ["libA.so"]
      (some "pathB") (some "pathB") (some "libA.so") rfl rfl rfl).2.1 ⟨29, 2⟩ rfl,
   (dynamic_last_occurrence_wins exCommon exDynamic exStrtab ["libA.so"]
      (some "pathB") (some "pathB") (some "libA.so") rfl rfl rfl).2.2 ⟨14, 1⟩ rfl⟩

/-- C10: when a dynamic section is present but the dynamic string table
is absent, dynamic-section parsing silently returns empty needed_deps
and absent rpath/runpath/soname — exactly the same successful output as
a binary whose dynamic section holds no string-valued entries at all, so
the two cases are indistinguishable and no error is raised. -/
theorem missing_dynstr_silently_empty (c : CommonElfData) :
    (∀ dyn, c.dynamic = some dyn → c.dynsyms_strs = none →
      parse_dynamic_section c = .ok ([], none, none, none)) ∧
    (∀ dyn st, c.dynamic = some dyn → c.dynsyms_strs = some st →
      (∀ e ∈ dyn, e.d_tag ≠ DT_NEEDED ∧ e.d_tag ≠ DT_RPATH ∧
        e.d_tag ≠ DT_RUNPATH ∧ e.d_tag ≠ DT_SONAME) →
      parse_dynamic_section c = .ok ([], none, none, none)) := by
  constructor
  · intro dyn h1 h2
    unfold parse_dynamic_section
    rw [h1, h2]
  · intro dyn st h1 h2 hall
    have hparse : parse_dynamic_section c =
        match scanDynamic st dyn [] none none none with
        | .panic m => .panic m
        | .ok (n, a, b, c0) => .ok (sortNat n, a, b, c0) := by
      unfold parse_dynamic_section
      rw [h1, h2]
    rw [hparse, scanDynamic_no_string_tags st dyn hall [] none none none]
    rfl

theorem missing_dynstr_silently_empty_witness :
    parse_dynamic_section exCommonNoStrs = .ok ([], none, none, none) ∧
    parse_dynamic_section exCommonBoring = .ok ([], none, none, none) :=
  ⟨(missing_dynstr_silently_empty exCommonNoStrs).1 exDynamic rfl rfl,
   (missing_dynstr_silently_empty exCommonBoring).2 exDynamicBoring exStrtab rfl rfl
     (by decide)⟩

/-! Symbol classification: claim C5. -/

/-- Helper: on success, the classification loop returns exactly the
names of the undefined entries (in table order) as imports and exactly
the names of the defined default-visibility entries as exports. -/
theorem classifySyms_spec (st : StrTab) : ∀ (syms : List DynSym) (imps exps : List String),
    classifySyms st syms = .ok (imps, exps) →
    imps = (syms.filter fun s => s.is_undefined).filterMap (fun s => st.get s.st_name) ∧
    exps = (syms.filter fun s => !s.is_undefined && s.st_vis == 0).filterMap
      (fun s => st.get s.st_name) := by
  intro syms
  induction syms with
  | nil =>
    intro imps exps h
    unfold classifySyms at h
    injection h with h'
    simp only [Prod.mk.injEq] at h'
    obtain ⟨h1, h2⟩ := h'
    subst h1 h2
    exact ⟨rfl, rfl⟩
  | cons d rest ih =>
    intro imps exps h
    unfold classifySyms at h
    split at h
    · cases h
    rename_i ds heq
    split at h
    · cases h
    rename_i ri re heq2
    obtain ⟨ih1, ih2⟩ := ih ri re heq2
    by_cases hu : d.is_undefined = true
    · simp only [hu, if_true] at h
      injection h with h'
      simp only [Prod.mk.injEq] at h'
      obtain ⟨h1, h2⟩ := h'
      subst h1 h2
      have hexp : (!d.is_undefined && d.st_vis == 0) = false := by simp [hu]
      constructor
      · simp [List.filter_cons, hu, List.filterMap_cons, heq, ih1]
      · simp [List.filter_cons, hexp, ih2]
    · have hu' : d.is_undefined = false := by simpa using hu
      by_cases hv : (d.st_vis == 0) = true
      · have hexp : (!d.is_undefined && d.st_vis == 0) = true := by simp [hu', hv]
        simp [hu', hv] at h
        obtain ⟨h1, h2⟩ := h
        subst h1 h2
        constructor
        · simp [List.filter_cons, hu', ih1]
        · simp [List.filter_cons, hexp, List.filterMap_cons, heq, ih2]
      · have hexp : (!d.is_undefined && d.st_vis == 0) = false := by
          simp only [Bool.and_eq_false_iff]
          right
          simpa using hv
        simp [hu', hv] at h
        obtain ⟨h1, h2⟩ := h
        subst h1 h2
        constructor
        · simp [List.filter_cons, hu', ih1]
        · simp [List.filter_cons, hexp, ih2]

/-- C5: every dynamic symbol table entry is placed in exactly one of the
three classes imported / exported / ignored: imported iff its section
index marks it undefined (even when its resolved name is empty),
exported iff it is defined with default (zero) visibility, and ignored
(in neither output list) iff it is defined with non-default visibility;
the three conditions are mutually exclusive and exhaustive. -/
theorem dynsym_classification_partition (st : StrTab) (syms : List DynSym)
    (imps exps : List String) (h : classifySyms st syms = .ok (imps, exps)) :
    imps = (syms.filter fun s => s.is_undefined).filterMap (fun s => st.get s.st_name) ∧
    exps = (syms.filter fun s => !s.is_undefined && s.st_vis == 0).filterMap
      (fun s => st.get s.st_name) ∧
    ∀ s : DynSym,
      (s.is_undefined = true ∧ ¬(!s.is_undefined && s.st_vis == 0) = true ∧
        ¬(!s.is_undefined && s.st_vis != 0) = true) ∨
      (¬s.is_undefined = true ∧ (!s.is_undefined && s.st_vis == 0) = true ∧
        ¬(!s.is_undefined && s.st_vis != 0) = true) ∨
      (¬s.is_undefined = true ∧ ¬(!s.is_undefined && s.st_vis == 0) = true ∧
        (!s.is_undefined && s.st_vis != 0) = true) := by
  obtain ⟨h1, h2⟩ := classifySyms_spec st syms imps exps h
  refine ⟨h1, h2, ?_⟩
  intro s
  rcases hu : s.is_undefined with _ | _
  · by_cases hv : s.st_vis = 0
    · exact Or.inr (Or.inl (by simp [hu, hv]))
    · exact Or.inr (Or.inr (by simp [hu, hv]))
  · exact Or.inl (by simp [hu])

theorem dynsym_classification_partition_witness :
    (["m10", "m2"] = (exDynsyms.filter fun s => s.is_undefined).filterMap
        (fun s => exStrtab.get s.st_name)) ∧
    (["libA.so"] = (exDynsyms.filter fun s => !s.is_undefined && s.st_vis == 0).filterMap
        (fun s => exStrtab.get s.st_name)) :=
  ⟨(dynsym_classification_partition exStrtab exDynsyms ["m10", "m2"] ["libA.so"] rfl).1,
   (dynsym_classification_partition exStrtab exDynsyms ["m10", "m2"] ["libA.so"] rfl).2.1⟩

/-! Sorting of the capture lists: claim C6. -/

/-- C6: for every successfully produced capture, the imported-symbols
list, the exported-symbols list and the needed-deps list are each sorted
in natural order, and each is a permutation of the corresponding raw
list collected from the underlying tables (so duplicate entries are
preserved, not removed). -/
theorem capture_lists_sorted_and_duplicates_preserved
    (fs : FsEnv) (lib : ElfLib) (fn : String) (bytes : List Nat) (ef : ElfFile)
    (c : CommonElfData) (cap : AbiCapture)
    (hread : fs.readFile fn = some bytes)
    (hpar : lib.minimal_parse bytes = some ef)
    (hcommon : ef.common = some c)
    (h : parse_elf fs lib fn = .ok (.ok cap)) :
    cap.dynsym_imports.Sorted natLeP ∧
    cap.dynsym_exports.Sorted natLeP ∧
    cap.needed_deps.Sorted natLeP ∧
    (∃ syms st i0 e0, c.dynsyms = some syms ∧ c.dynsyms_strs = some st ∧
      classifySyms st syms = .ok (i0, e0) ∧
      cap.dynsym_imports.Perm i0 ∧ cap.dynsym_exports.Perm e0) ∧
    (∃ n0, cap.needed_deps.Perm n0 ∧
      (((c.dynamic = none ∨ c.dynsyms_strs = none) ∧ n0 = []) ∨
       (∃ dyn st rp runp so, c.dynamic = some dyn ∧ c.dynsyms_strs = some st ∧
         scanDynamic st dyn [] none none none = .ok (n0, rp, runp, so)))) := by
  unfold parse_elf at h
  split at h
  · cases h
  rename_i data hdata
  rw [hread] at hdata
  injection hdata with hdata'
  subst hdata'
  split at h
  · cases h
  rename_i ef2 hef2
  rw [hpar] at hef2
  injection hef2 with hef2'
  subst hef2'
  split at h
  · cases h
  rename_i c2 hc2
  rw [hcommon] at hc2
  injection hc2 with hc2'
  subst hc2'
  split at h
  · cases h
  rename_i i e heq1
  split at h
  · cases h
  rename_i n a b c0 heq2
  injection h with h'
  injection h' with h''
  subst h''
  unfold parse_dynsyms_section at heq1
  split at heq1
  · rename_i syms strtab hsyms hstrs
    split at heq1
    · cases heq1
    rename_i i0 e0 heq3
    simp only [POut.ok.injEq, Prod.mk.injEq] at heq1
    obtain ⟨hi, he⟩ := heq1
    subst hi he
    rcases hd : c.dynamic with _ | dyn
    · have hnone : parse_dynamic_section c = .ok ([], none, none, none) := by
        unfold parse_dynamic_section
        rw [hd]
      rw [hnone] at heq2
      simp only [POut.ok.injEq, Prod.mk.injEq] at heq2
      obtain ⟨hn, ha, hb, hc0⟩ := heq2
      subst hn ha hb hc0
      exact ⟨sortNat_sorted i0, sortNat_sorted e0, List.sorted_nil,
        ⟨syms, strtab, i0, e0, hsyms, hstrs, heq3, sortNat_perm i0, sortNat_perm e0⟩,
        ⟨[], List.Perm.refl [], Or.inl ⟨Or.inl rfl, rfl⟩⟩⟩
    · have hp : parse_dynamic_section c =
          match scanDynamic strtab dyn [] none none none with
          | .panic m => .panic m
          | .ok (n, a, b, c0) => .ok (sortNat n, a, b, c0) := by
        unfold parse_dynamic_section
        rw [hd, hstrs]
      rw [hp] at heq2
      split at heq2
      · cases heq2
      rename_i n0 a0 b0 c00 heq4
      simp only [POut.ok.injEq, Prod.mk.injEq] at heq2
      obtain ⟨hn, ha, hb, hc0⟩ := heq2
      subst hn ha hb hc0
      exact ⟨sortNat_sorted i0, sortNat_sorted e0, sortNat_sorted n0,
        ⟨syms, strtab, i0, e0, hsyms, hstrs, heq3, sortNat_perm i0, sortNat_perm e0⟩,
        ⟨n0, sortNat_perm n0, Or.inr ⟨dyn, strtab, a0, b0, c00, rfl, hstrs, heq4⟩⟩⟩
  · cases heq1

theorem capture_lists_sorted_witness :
    exCapture.dynsym_imports.Sorted natLeP ∧
    exCapture.dynsym_exports.Sorted natLeP ∧
    exCapture.needed_deps.Sorted natLeP :=
  ⟨(capture_lists_sorted_and_duplicates_preserved exFs exLib "f" [127, 69, 76, 70]
      ⟨2, some exCommon⟩ exCommon exCapture rfl rfl rfl rfl).1,
   (capture_lists_sorted_and_duplicates_preserved exFs exLib "f" [127, 69, 76, 70]
      ⟨2, some exCommon⟩ exCommon exCapture rfl rfl rfl rfl).2.1,
   (capture_lists_sorted_and_duplicates_preserved exFs exLib "f" [127, 69, 76, 70]
      ⟨2, some exCommon⟩ exCommon exCapture rfl rfl rfl rfl).2.2.1⟩

end AbiReport
